import Mathlib

/-!
# Message builder of `network/message/builder.go`

A shallow embedding of the outbound-message builder: every method of the Go
`Builder` interface shapes its arguments into a `map[Field]interface{}` and
makes one call to `Codec.Pack`.

Conventions of the embedding:
* `uint32` / `uint64` arguments are natural numbers (the builder performs no
  arithmetic on them, it only stores them);
* a Go slice is a list, the nil slice and the empty slice both being `[]`;
* a Go `map[Field]interface{}` is a lookup function, the nil map being `none`;
* the codec is an interface value that may carry state, so `Pack` threads a
  state of type `σ`.
-/

namespace Message

/-- A byte. -/
abbrev Byte := Fin 256

/-- The identifier type `ids.ID`, a `[32]byte` array. -/
structure ID where
  bytes : List Byte
  len : bytes.length = 32
  deriving DecidableEq

/-- The zero value of `ids.ID`. -/
def ID.zero : ID := ⟨List.replicate 32 0, by decide⟩

/-- Modelled from the spec: the IP-address/port descriptor `utils.IPDesc`, a collaborator
type declared outside `builder.go`. -/
structure IPDesc where
  IP : List Byte
  Port : Nat
  deriving DecidableEq

/-- Modelled from the spec: the signed-peer record `utils.IPCertDesc` (IP + certificate), a
collaborator type declared outside `builder.go`. -/
structure IPCertDesc where
  Cert : List Byte
  IPDesc : IPDesc
  deriving DecidableEq

/-- Message types named by `builder.go` (the `Op` constants of the package). -/
inductive Op where
  | GetVersion | Version | GetPeerList | PeerList | Ping | Pong
  | GetAcceptedFrontier | AcceptedFrontier | GetAccepted | Accepted
  | GetAncestors | MultiPut | Get | Put | PushQuery | PullQuery | Chits
  | AppRequest | AppResponse | AppGossip
  deriving DecidableEq, Repr

/-- Field symbols named by `builder.go` (the `Field` constants of the package). -/
inductive Field where
  | NetworkID | NodeID | MyTime | IP | VersionStr | VersionTime | SigBytes
  | TrackedSubnets | SignedPeers | ChainID | RequestID | Deadline
  | ContainerID | ContainerIDs | MultiContainerBytes | ContainerBytes
  | AppRequestBytes | AppResponseBytes | AppGossipBytes
  deriving DecidableEq, Repr

/-- The dynamic values (`interface{}`) the builder stores in a field map, tagged by
their Go type. -/
inductive Value where
  | uint32 (v : Nat)
  | uint64 (v : Nat)
  | string (s : String)
  | ipDesc (ip : IPDesc)
  | bytes (b : List Byte)
  | byteSlices (bs : List (List Byte))
  | peers (ps : List IPCertDesc)
  deriving DecidableEq

/-- A Go `map[Field]interface{}`: `none` is the nil map, `some g` a map whose lookup
function is `g`. -/
abbrev FieldMap := Option (Field → Option Value)

/-- Lookup of a key (`v, ok := m[f]`); the nil map has no key. -/
def FieldMap.get (m : FieldMap) (f : Field) : Option Value :=
  match m with
  | none => none
  | some g => g f

/-- The map composite literal `map[Field]interface{}{k1: v1, ..., kn: vn}`: starting from
an empty map, the entries are stored one after the other. -/
def mapLit (kvs : List (Field × Value)) : FieldMap :=
  some (kvs.foldl (fun g kv => fun f => if f = kv.1 then some kv.2 else g f) (fun _ => none))

/-- Modelled from the spec: the `Codec` interface consumed by the builder (its declaration is
outside `builder.go`). `Pack(op, fieldValues, compress)` returns an outbound message and an
error; being a method of an interface value it may read and update the codec's state `σ`.
`Unpack` decodes a message back into its opcode and field values and is side-effect-free. -/
structure Codec (σ Msg Err : Type) where
  Pack : Op → FieldMap → Bool → σ → (Msg × Option Err) × σ
  Unpack : Msg → Option (Op × FieldMap)

/-- The builder: `type builder struct{ c Codec }`. -/
structure builder (σ Msg Err : Type) where
  c : Codec σ Msg Err

/-- `NewBuilder(c)` wraps the codec. -/
def NewBuilder {σ Msg Err : Type} (c : Codec σ Msg Err) : builder σ Msg Err :=
  { c := c }

/-- Memory of the identifier-flattening loop. `cells` are the `[32]byte` arrays that exist
(cell `0` is the range variable `containerID`); `out` is the `[][]byte` under construction,
each element the nil slice (`none`) or a slice over the whole array of a cell. -/
structure LoopMem where
  cells : List ID
  out : List (Option Nat)

/-- The body of
`for i, containerID := range containerIDs { copy := containerID; containerIDBytes[i] = copy[:] }`
run over the remaining elements, `i` being the index of the first of them. -/
def sliceLoop : List ID → Nat → LoopMem → LoopMem
  | [], _, m => m
  | x :: rest, i, m =>
    -- the range variable takes the value of the i-th element
    let cells1 := m.cells.set 0 x
    -- copy := containerID  allocates a fresh array holding the range variable's value
    let cells2 := cells1 ++ [cells1.getD 0 ID.zero]
    -- containerIDBytes[i] = copy[:]
    sliceLoop rest (i + 1) { cells := cells2, out := m.out.set i (some cells1.length) }

/-- Reading a `[][]byte` whose elements are slices over cells of the memory. -/
def readSlices (cells : List ID) (out : List (Option Nat)) : List (List Byte) :=
  out.map (fun r =>
    match r with
    | none => []
    | some a => (cells.getD a ID.zero).bytes)

/-- The flattening of an identifier list done by `Version`, `AcceptedFrontier`,
`GetAccepted`, `Accepted` and `Chits`: `make([][]byte, len(ids))` followed by the loop,
read when the loop is over. -/
def idsToBytes (ids : List ID) : List (List Byte) :=
  let m := sliceLoop ids 0 { cells := [ID.zero], out := List.replicate ids.length none }
  readSlices m.cells m.out

/-- Modelled from the spec: the per-type compressibility flag `Op.Compressable()`, a method
declared outside `builder.go`. The catalogue marks bulk content and application payload
messages compressible and every other type not: these are the types whose builder comment
reads "may be compressed", the others read "can't be compressed". -/
def Op.Compressable : Op → Bool
  | .PeerList | .MultiPut | .Put | .PushQuery
  | .AppRequest | .AppResponse | .AppGossip => true
  | _ => false

section Operations

variable {σ Msg Err : Type}

/- Every operation takes the compressibility method of the package as its first argument
`Compressable` (the method is declared outside `builder.go`), then the receiver, then the
arguments of the Go method, then the state of the codec. -/

/-- The method `(b *builder) GetVersion`. -/
def builder.GetVersion (Compressable : Op → Bool) (b : builder σ Msg Err) (s : σ) :
    (Msg × Option Err) × σ :=
  b.c.Pack Op.GetVersion none (Compressable Op.GetVersion) s

/-- The method `(b *builder) Version`. -/
def builder.Version (Compressable : Op → Bool) (b : builder σ Msg Err)
    (networkID nodeID : Nat) (myTime : Nat) (ip : IPDesc) (myVersion : String)
    (myVersionTime : Nat) (sig : List Byte) (trackedSubnets : List ID) (s : σ) :
    (Msg × Option Err) × σ :=
  let subnetIDBytes := idsToBytes trackedSubnets
  b.c.Pack Op.Version
    (mapLit [
      (Field.NetworkID, Value.uint32 networkID),
      (Field.NodeID, Value.uint32 nodeID),
      (Field.MyTime, Value.uint64 myTime),
      (Field.IP, Value.ipDesc ip),
      (Field.VersionStr, Value.string myVersion),
      (Field.VersionTime, Value.uint64 myVersionTime),
      (Field.SigBytes, Value.bytes sig),
      (Field.TrackedSubnets, Value.byteSlices subnetIDBytes)])
    (Compressable Op.Version) s

/-- The method `(b *builder) GetPeerList`. -/
def builder.GetPeerList (Compressable : Op → Bool) (b : builder σ Msg Err) (s : σ) :
    (Msg × Option Err) × σ :=
  b.c.Pack Op.GetPeerList none (Compressable Op.GetPeerList) s

/-- The method `(b *builder) PeerList`. -/
def builder.PeerList (Compressable : Op → Bool) (b : builder σ Msg Err)
    (peers : List IPCertDesc) (compress : Bool) (s : σ) : (Msg × Option Err) × σ :=
  b.c.Pack Op.PeerList
    (mapLit [(Field.SignedPeers, Value.peers peers)])
    (compress && Compressable Op.PeerList) s

/-- The method `(b *builder) Ping`. -/
def builder.Ping (Compressable : Op → Bool) (b : builder σ Msg Err) (s : σ) :
    (Msg × Option Err) × σ :=
  b.c.Pack Op.Ping none (Compressable Op.Ping) s

/-- The method `(b *builder) Pong`. -/
def builder.Pong (Compressable : Op → Bool) (b : builder σ Msg Err) (s : σ) :
    (Msg × Option Err) × σ :=
  b.c.Pack Op.Pong none (Compressable Op.Pong) s

/-- The method `(b *builder) GetAcceptedFrontier`. -/
def builder.GetAcceptedFrontier (Compressable : Op → Bool) (b : builder σ Msg Err)
    (chainID : ID) (requestID : Nat) (deadline : Nat) (s : σ) : (Msg × Option Err) × σ :=
  b.c.Pack Op.GetAcceptedFrontier
    (mapLit [
      (Field.ChainID, Value.bytes chainID.bytes),
      (Field.RequestID, Value.uint32 requestID),
      (Field.Deadline, Value.uint64 deadline)])
    (Compressable Op.GetAcceptedFrontier) s

/-- The method `(b *builder) AcceptedFrontier`. -/
def builder.AcceptedFrontier (Compressable : Op → Bool) (b : builder σ Msg Err)
    (chainID : ID) (requestID : Nat) (containerIDs : List ID) (s : σ) :
    (Msg × Option Err) × σ :=
  let containerIDBytes := idsToBytes containerIDs
  b.c.Pack Op.AcceptedFrontier
    (mapLit [
      (Field.ChainID, Value.bytes chainID.bytes),
      (Field.RequestID, Value.uint32 requestID),
      (Field.ContainerIDs, Value.byteSlices containerIDBytes)])
    (Compressable Op.AcceptedFrontier) s

/-- The method `(b *builder) GetAccepted`. -/
def builder.GetAccepted (Compressable : Op → Bool) (b : builder σ Msg Err)
    (chainID : ID) (requestID : Nat) (deadline : Nat) (containerIDs : List ID) (s : σ) :
    (Msg × Option Err) × σ :=
  let containerIDBytes := idsToBytes containerIDs
  b.c.Pack Op.GetAccepted
    (mapLit [
      (Field.ChainID, Value.bytes chainID.bytes),
      (Field.RequestID, Value.uint32 requestID),
      (Field.Deadline, Value.uint64 deadline),
      (Field.ContainerIDs, Value.byteSlices containerIDBytes)])
    (Compressable Op.GetAccepted) s

/-- The method `(b *builder) Accepted`. -/
def builder.Accepted (Compressable : Op → Bool) (b : builder σ Msg Err)
    (chainID : ID) (requestID : Nat) (containerIDs : List ID) (s : σ) :
    (Msg × Option Err) × σ :=
  let containerIDBytes := idsToBytes containerIDs
  b.c.Pack Op.Accepted
    (mapLit [
      (Field.ChainID, Value.bytes chainID.bytes),
      (Field.RequestID, Value.uint32 requestID),
      (Field.ContainerIDs, Value.byteSlices containerIDBytes)])
    (Compressable Op.Accepted) s

/-- The method `(b *builder) GetAncestors`. -/
def builder.GetAncestors (Compressable : Op → Bool) (b : builder σ Msg Err)
    (chainID : ID) (requestID : Nat) (deadline : Nat) (containerID : ID) (s : σ) :
    (Msg × Option Err) × σ :=
  b.c.Pack Op.GetAncestors
    (mapLit [
      (Field.ChainID, Value.bytes chainID.bytes),
      (Field.RequestID, Value.uint32 requestID),
      (Field.Deadline, Value.uint64 deadline),
      (Field.ContainerID, Value.bytes containerID.bytes)])
    (Compressable Op.GetAncestors) s

/-- The method `(b *builder) MultiPut`. -/
def builder.MultiPut (Compressable : Op → Bool) (b : builder σ Msg Err)
    (chainID : ID) (requestID : Nat) (containers : List (List Byte)) (compressed : Bool)
    (s : σ) : (Msg × Option Err) × σ :=
  b.c.Pack Op.MultiPut
    (mapLit [
      (Field.ChainID, Value.bytes chainID.bytes),
      (Field.RequestID, Value.uint32 requestID),
      (Field.MultiContainerBytes, Value.byteSlices containers)])
    (compressed && Compressable Op.MultiPut) s

/-- The method `(b *builder) Get`. -/
def builder.Get (Compressable : Op → Bool) (b : builder σ Msg Err)
    (chainID : ID) (requestID : Nat) (deadline : Nat) (containerID : ID) (s : σ) :
    (Msg × Option Err) × σ :=
  b.c.Pack Op.Get
    (mapLit [
      (Field.ChainID, Value.bytes chainID.bytes),
      (Field.RequestID, Value.uint32 requestID),
      (Field.Deadline, Value.uint64 deadline),
      (Field.ContainerID, Value.bytes containerID.bytes)])
    (Compressable Op.Get) s

/-- The method `(b *builder) Put`. -/
def builder.Put (Compressable : Op → Bool) (b : builder σ Msg Err)
    (chainID : ID) (requestID : Nat) (containerID : ID) (container : List Byte)
    (compress : Bool) (s : σ) : (Msg × Option Err) × σ :=
  b.c.Pack Op.Put
    (mapLit [
      (Field.ChainID, Value.bytes chainID.bytes),
      (Field.RequestID, Value.uint32 requestID),
      (Field.ContainerID, Value.bytes containerID.bytes),
      (Field.ContainerBytes, Value.bytes container)])
    (compress && Compressable Op.Put) s

/-- The method `(b *builder) PushQuery`. -/
def builder.PushQuery (Compressable : Op → Bool) (b : builder σ Msg Err)
    (chainID : ID) (requestID : Nat) (deadline : Nat) (containerID : ID)
    (container : List Byte) (compress : Bool) (s : σ) : (Msg × Option Err) × σ :=
  b.c.Pack Op.PushQuery
    (mapLit [
      (Field.ChainID, Value.bytes chainID.bytes),
      (Field.RequestID, Value.uint32 requestID),
      (Field.Deadline, Value.uint64 deadline),
      (Field.ContainerID, Value.bytes containerID.bytes),
      (Field.ContainerBytes, Value.bytes container)])
    (compress && Compressable Op.PushQuery) s

/-- The method `(b *builder) PullQuery`. -/
def builder.PullQuery (Compressable : Op → Bool) (b : builder σ Msg Err)
    (chainID : ID) (requestID : Nat) (deadline : Nat) (containerID : ID) (s : σ) :
    (Msg × Option Err) × σ :=
  b.c.Pack Op.PullQuery
    (mapLit [
      (Field.ChainID, Value.bytes chainID.bytes),
      (Field.RequestID, Value.uint32 requestID),
      (Field.Deadline, Value.uint64 deadline),
      (Field.ContainerID, Value.bytes containerID.bytes)])
    (Compressable Op.PullQuery) s

/-- The method `(b *builder) Chits`. -/
def builder.Chits (Compressable : Op → Bool) (b : builder σ Msg Err)
    (chainID : ID) (requestID : Nat) (containerIDs : List ID) (s : σ) :
    (Msg × Option Err) × σ :=
  let containerIDBytes := idsToBytes containerIDs
  b.c.Pack Op.Chits
    (mapLit [
      (Field.ChainID, Value.bytes chainID.bytes),
      (Field.RequestID, Value.uint32 requestID),
      (Field.ContainerIDs, Value.byteSlices containerIDBytes)])
    (Compressable Op.Chits) s

/-- The method `(b *builder) AppRequest`. -/
def builder.AppRequest (Compressable : Op → Bool) (b : builder σ Msg Err)
    (chainID : ID) (requestID : Nat) (deadline : Nat) (msg : List Byte) (compress : Bool)
    (s : σ) : (Msg × Option Err) × σ :=
  b.c.Pack Op.AppRequest
    (mapLit [
      (Field.ChainID, Value.bytes chainID.bytes),
      (Field.RequestID, Value.uint32 requestID),
      (Field.Deadline, Value.uint64 deadline),
      (Field.AppRequestBytes, Value.bytes msg)])
    (compress && Compressable Op.AppRequest) s

/-- The method `(b *builder) AppResponse`. -/
def builder.AppResponse (Compressable : Op → Bool) (b : builder σ Msg Err)
    (chainID : ID) (requestID : Nat) (msg : List Byte) (compress : Bool) (s : σ) :
    (Msg × Option Err) × σ :=
  b.c.Pack Op.AppResponse
    (mapLit [
      (Field.ChainID, Value.bytes chainID.bytes),
      (Field.RequestID, Value.uint32 requestID),
      (Field.AppResponseBytes, Value.bytes msg)])
    (compress && Compressable Op.AppResponse) s

/-- The method `(b *builder) AppGossip`. -/
def builder.AppGossip (Compressable : Op → Bool) (b : builder σ Msg Err)
    (chainID : ID) (msg : List Byte) (compress : Bool) (s : σ) : (Msg × Option Err) × σ :=
  b.c.Pack Op.AppGossip
    (mapLit [
      (Field.ChainID, Value.bytes chainID.bytes),
      (Field.AppGossipBytes, Value.bytes msg)])
    (compress && Compressable Op.AppGossip) s

end Operations

/-- One invocation of a method of the `Builder` interface, with its arguments. -/
inductive Call where
  | GetVersion
  | Version (networkID nodeID myTime : Nat) (ip : IPDesc) (myVersion : String)
      (myVersionTime : Nat) (sig : List Byte) (trackedSubnets : List ID)
  | GetPeerList
  | PeerList (peers : List IPCertDesc) (compress : Bool)
  | Ping
  | Pong
  | GetAcceptedFrontier (chainID : ID) (requestID deadline : Nat)
  | AcceptedFrontier (chainID : ID) (requestID : Nat) (containerIDs : List ID)
  | GetAccepted (chainID : ID) (requestID deadline : Nat) (containerIDs : List ID)
  | Accepted (chainID : ID) (requestID : Nat) (containerIDs : List ID)
  | GetAncestors (chainID : ID) (requestID deadline : Nat) (containerID : ID)
  | MultiPut (chainID : ID) (requestID : Nat) (containers : List (List Byte))
      (compressed : Bool)
  | Get (chainID : ID) (requestID deadline : Nat) (containerID : ID)
  | Put (chainID : ID) (requestID : Nat) (containerID : ID) (container : List Byte)
      (compress : Bool)
  | PushQuery (chainID : ID) (requestID deadline : Nat) (containerID : ID)
      (container : List Byte) (compress : Bool)
  | PullQuery (chainID : ID) (requestID deadline : Nat) (containerID : ID)
  | Chits (chainID : ID) (requestID : Nat) (containerIDs : List ID)
  | AppRequest (chainID : ID) (requestID deadline : Nat) (msg : List Byte) (compress : Bool)
  | AppResponse (chainID : ID) (requestID : Nat) (msg : List Byte) (compress : Bool)
  | AppGossip (chainID : ID) (msg : List Byte) (compress : Bool)

/-- The method of the `Builder` interface a call names. -/
def Call.op : Call → Op
  | .GetVersion => .GetVersion
  | .Version .. => .Version
  | .GetPeerList => .GetPeerList
  | .PeerList .. => .PeerList
  | .Ping => .Ping
  | .Pong => .Pong
  | .GetAcceptedFrontier .. => .GetAcceptedFrontier
  | .AcceptedFrontier .. => .AcceptedFrontier
  | .GetAccepted .. => .GetAccepted
  | .Accepted .. => .Accepted
  | .GetAncestors .. => .GetAncestors
  | .MultiPut .. => .MultiPut
  | .Get .. => .Get
  | .Put .. => .Put
  | .PushQuery .. => .PushQuery
  | .PullQuery .. => .PullQuery
  | .Chits .. => .Chits
  | .AppRequest .. => .AppRequest
  | .AppResponse .. => .AppResponse
  | .AppGossip .. => .AppGossip

/-- Dispatch of a call to the method of `builder` that implements it. -/
def builder.invoke {σ Msg Err : Type} (Compressable : Op → Bool) (b : builder σ Msg Err)
    (call : Call) (s : σ) : (Msg × Option Err) × σ :=
  match call with
  | .GetVersion => b.GetVersion Compressable s
  | .Version n d t ip v vt sig subs => b.Version Compressable n d t ip v vt sig subs s
  | .GetPeerList => b.GetPeerList Compressable s
  | .PeerList ps z => b.PeerList Compressable ps z s
  | .Ping => b.Ping Compressable s
  | .Pong => b.Pong Compressable s
  | .GetAcceptedFrontier c r d => b.GetAcceptedFrontier Compressable c r d s
  | .AcceptedFrontier c r ks => b.AcceptedFrontier Compressable c r ks s
  | .GetAccepted c r d ks => b.GetAccepted Compressable c r d ks s
  | .Accepted c r ks => b.Accepted Compressable c r ks s
  | .GetAncestors c r d k => b.GetAncestors Compressable c r d k s
  | .MultiPut c r cs z => b.MultiPut Compressable c r cs z s
  | .Get c r d k => b.Get Compressable c r d k s
  | .Put c r k bs z => b.Put Compressable c r k bs z s
  | .PushQuery c r d k bs z => b.PushQuery Compressable c r d k bs z s
  | .PullQuery c r d k => b.PullQuery Compressable c r d k s
  | .Chits c r ks => b.Chits Compressable c r ks s
  | .AppRequest c r d m z => b.AppRequest Compressable c r d m z s
  | .AppResponse c r m z => b.AppResponse Compressable c r m z s
  | .AppGossip c m z => b.AppGossip Compressable c m z s

/-- The three arguments of one call to `Pack`. -/
structure PackArgs where
  op : Op
  fields : FieldMap
  compress : Bool

/-- A codec that records: `Pack` returns its own arguments as the message, never fails, and
appends them to a log of the calls it received; `Unpack` reads the arguments back. -/
def recorder : Codec (List PackArgs) PackArgs Unit where
  Pack := fun op m z log => ((⟨op, m, z⟩, none), log ++ [⟨op, m, z⟩])
  Unpack := fun a => some (a.op, a.fields)

/-- What a call hands to `Pack`: the arguments seen by the recording codec. -/
def handed (Compressable : Op → Bool) (call : Call) : PackArgs :=
  ((NewBuilder recorder).invoke Compressable call []).1.1

/-- Running a sequence of calls on a builder, one after the other, from a codec state. -/
def builder.runAll {σ Msg Err : Type} (Compressable : Op → Bool) (b : builder σ Msg Err) :
    List Call → σ → σ
  | [], s => s
  | call :: rest, s => b.runAll Compressable rest (b.invoke Compressable call s).2

/-- The identifier whose first 31 bytes are zero and whose last byte is `n`. -/
def ID.ofLast (n : Byte) : ID := ⟨List.replicate 31 0 ++ [n], by simp⟩

/-- A map holds exactly the listed entries: every listed key is bound to its listed value
and no other key is present. -/
def FieldMap.HasExactly (m : FieldMap) (kvs : List (Field × Value)) : Prop :=
  (∀ kv ∈ kvs, m.get kv.1 = some kv.2) ∧ (∀ f, f ∉ kvs.map Prod.fst → m.get f = none)

/-- A stored value is the flattening of an identifier list: a list of byte arrays of the
same length whose element at every index is the 32-byte view of the identifier there. -/
def Flattens (ids : List ID) (v : Option Value) : Prop :=
  ∃ bs : List (List Byte), v = some (Value.byteSlices bs) ∧ bs.length = ids.length ∧
    ∀ i : Nat, bs[i]? = ids[i]?.map ID.bytes

/-! ## The flattening loop -/

/-- Reading is elementwise. -/
theorem readSlices_append (cells : List ID) (o1 o2 : List (Option Nat)) :
    readSlices cells (o1 ++ o2) = readSlices cells o1 ++ readSlices cells o2 := by
  simp [readSlices]

/-- Slices over cells `1 .. n` read the same after cell `0` is overwritten and a cell is
appended. -/
theorem readSlices_frame (c0 x y : ID) (cs : List ID) (o : List (Option Nat))
    (h : ∀ a, some a ∈ o → 1 ≤ a ∧ a < (c0 :: cs).length) :
    readSlices (x :: cs ++ [y]) o = readSlices (c0 :: cs) o := by
  unfold readSlices
  apply List.map_congr_left
  intro r hr
  cases r with
  | none => rfl
  | some a =>
    obtain ⟨h1, h2⟩ := h a hr
    cases a with
    | zero => omega
    | succ k =>
      have hk : k < cs.length := by simpa using h2
      simp [List.getD, List.getElem?_append_left, hk]

/-- Invariant of the loop: once it is over, the elements written before it started read as
before and the elements it wrote read as the identifiers, in order. -/
theorem sliceLoop_read (ids : List ID) :
    ∀ (i : Nat) (cells : List ID) (out : List (Option Nat)),
      cells ≠ [] → out.length = i + ids.length →
      (∀ a, some a ∈ out.take i → 1 ≤ a ∧ a < cells.length) →
      readSlices (sliceLoop ids i ⟨cells, out⟩).cells (sliceLoop ids i ⟨cells, out⟩).out
        = readSlices cells (out.take i) ++ ids.map ID.bytes := by
  induction ids with
  | nil =>
    intro i cells out _ hlen _
    have : out.take i = out := List.take_of_length_le (by simp at hlen; omega)
    simp [sliceLoop, this]
  | cons x rest ih =>
    intro i cells out hne hlen hin
    cases cells with
    | nil => exact absurd rfl hne
    | cons c0 cs =>
      have hi : i < out.length := by simp at hlen; omega
      have htake : (out.set i (some (cs.length + 1))).take (i + 1)
          = out.take i ++ [some (cs.length + 1)] := by
        have h0 : (out.set i (some (cs.length + 1))).take i = out.take i := by
          rw [List.set_take, List.set_eq_of_length_le (by simp)]
        rw [List.take_succ, h0]
        simp [hi]
      have hstep := ih (i + 1) (x :: cs ++ [x]) (out.set i (some (cs.length + 1)))
        (by simp) (by simp at hlen ⊢; omega)
        (by
          intro a ha
          rw [htake] at ha
          rcases List.mem_append.1 ha with h | h
          · have := hin a h
            simp at this ⊢
            omega
          · simp at h
            subst h
            simp)
      simp only [sliceLoop, List.set_cons_zero, List.getD_cons_zero, List.length_cons]
      rw [hstep, htake, readSlices_append, readSlices_frame c0 x x cs _ hin]
      simp [readSlices, List.getD]

/-- The flattening loop computes the list of the 32-byte views of the identifiers. -/
theorem idsToBytes_eq_map (ids : List ID) : idsToBytes ids = ids.map ID.bytes := by
  unfold idsToBytes
  have h := sliceLoop_read ids 0 [ID.zero] (List.replicate ids.length none)
    (by simp) (by simp) (by simp)
  simpa [readSlices] using h

/-- The 32-byte view determines the identifier. -/
theorem ID.bytes_injective : Function.Injective ID.bytes := by
  intro a b h
  cases a; cases b
  simp at h
  subst h
  rfl

/-! ## Map literals -/

/-- Storing entries leaves the keys they do not name untouched. -/
theorem foldl_store_other (kvs : List (Field × Value)) :
    ∀ (g : Field → Option Value) (f : Field), f ∉ kvs.map Prod.fst →
      (kvs.foldl (fun g kv => fun f => if f = kv.1 then some kv.2 else g f) g) f = g f := by
  induction kvs with
  | nil => intro g f _; rfl
  | cons kv rest ih =>
    intro g f hf
    simp only [List.map_cons, List.mem_cons, not_or] at hf
    simp only [List.foldl_cons]
    rw [ih _ f hf.2]
    simp [hf.1]

/-- Storing entries with pairwise different keys binds every key to its value. -/
theorem foldl_store_mem (kvs : List (Field × Value)) :
    ∀ (g : Field → Option Value), (kvs.map Prod.fst).Nodup → ∀ kv ∈ kvs,
      (kvs.foldl (fun g kv => fun f => if f = kv.1 then some kv.2 else g f) g) kv.1
        = some kv.2 := by
  induction kvs with
  | nil => intro g _ kv hkv; simp at hkv
  | cons hd rest ih =>
    intro g hnd kv hkv
    simp only [List.map_cons, List.nodup_cons] at hnd
    simp only [List.foldl_cons]
    rcases List.mem_cons.1 hkv with h | h
    · subst h
      rw [foldl_store_other rest _ kv.1 hnd.1]
      simp
    · exact ih _ hnd.2 kv h

/-- A map literal with pairwise different keys holds exactly its entries. -/
theorem mapLit_hasExactly (kvs : List (Field × Value)) (h : (kvs.map Prod.fst).Nodup) :
    (mapLit kvs).HasExactly kvs := by
  constructor
  · intro kv hkv
    exact foldl_store_mem kvs _ h kv hkv
  · intro f hf
    exact foldl_store_other kvs _ f hf

/-- A map that holds exactly some entries is determined at every key by them: two maps
holding exactly the same entries have the same lookups. -/
theorem hasExactly_get_unique (m1 m2 : FieldMap) (kvs : List (Field × Value))
    (h1 : m1.HasExactly kvs) (h2 : m2.HasExactly kvs) (f : Field) : m1.get f = m2.get f := by
  by_cases hf : f ∈ kvs.map Prod.fst
  · obtain ⟨kv, hkv, rfl⟩ := List.mem_map.1 hf
    rw [h1.1 kv hkv, h2.1 kv hkv]
  · rw [h1.2 f hf, h2.2 f hf]

/-! ## One call to `Pack` -/

/-- Every method returns what `Pack` returns on the arguments the recording codec sees. -/
theorem invoke_eq_pack {σ Msg Err : Type} (Compressable : Op → Bool) (b : builder σ Msg Err)
    (call : Call) (s : σ) :
    b.invoke Compressable call s
      = b.c.Pack (handed Compressable call).op (handed Compressable call).fields
          (handed Compressable call).compress s := by
  cases call <;> rfl

/-- The opcode handed to `Pack` is the one of the method called. -/
theorem handed_op (Compressable : Op → Bool) (call : Call) :
    (handed Compressable call).op = call.op := by
  cases call <;> rfl

/-- The flattening of a list satisfies the flattening predicate. -/
theorem flattens_idsToBytes (ids : List ID) :
    Flattens ids (some (Value.byteSlices (idsToBytes ids))) := by
  refine ⟨idsToBytes ids, rfl, ?_, ?_⟩
  · simp [idsToBytes_eq_map]
  · intro i
    simp [idsToBytes_eq_map]

/-! ## Claims -/

/-- C1. For every chain identifier, request id, deadline and container identifier, `Get`
hands `Pack` the opcode `Get` and a field mapping that holds exactly
`ChainID` (the 32 bytes of the chain identifier), `RequestID`, `Deadline` and `ContainerID`
(the 32 bytes of the container identifier); for every codec the result of `Get` is the result
of `Pack` on these arguments, and under a codec whose `Unpack` inverts `Pack` the decoded
fields of the built message are that mapping. -/
theorem C1_get_fields (Compressable : Op → Bool) (chainID : ID) (requestID deadline : Nat)
    (containerID : ID) :
    (handed Compressable (Call.Get chainID requestID deadline containerID)).op = Op.Get ∧
    (handed Compressable (Call.Get chainID requestID deadline containerID)).fields.HasExactly
      [(Field.ChainID, Value.bytes chainID.bytes),
       (Field.RequestID, Value.uint32 requestID),
       (Field.Deadline, Value.uint64 deadline),
       (Field.ContainerID, Value.bytes containerID.bytes)] ∧
    ∀ (σ Msg Err : Type) (b : builder σ Msg Err) (s : σ),
      b.Get Compressable chainID requestID deadline containerID s
        = b.c.Pack Op.Get
            (handed Compressable (Call.Get chainID requestID deadline containerID)).fields
            (Compressable Op.Get) s ∧
      ((∀ op m z t, (b.c.Pack op m z t).1.2 = none →
          b.c.Unpack (b.c.Pack op m z t).1.1 = some (op, m)) →
        (b.Get Compressable chainID requestID deadline containerID s).1.2 = none →
        b.c.Unpack (b.Get Compressable chainID requestID deadline containerID s).1.1
          = some (Op.Get,
              (handed Compressable (Call.Get chainID requestID deadline containerID)).fields)) := by
  have hex := mapLit_hasExactly
      [(Field.ChainID, Value.bytes chainID.bytes),
       (Field.RequestID, Value.uint32 requestID),
       (Field.Deadline, Value.uint64 deadline),
       (Field.ContainerID, Value.bytes containerID.bytes)] (by simp)
  refine ⟨rfl, hex, ?_⟩
  intro σ Msg Err b s
  refine ⟨rfl, ?_⟩
  intro hinv hok
  exact hinv _ _ _ _ hok

/-- C1 at the chain identifier `0x00..01`, request id `42`, deadline `1000` and container
identifier `0x00..02`, with the recording codec (whose `Unpack` inverts its `Pack`). -/
theorem C1_get_fields_witness :
    recorder.Unpack
        ((NewBuilder recorder).Get Op.Compressable (ID.ofLast 1) 42 1000 (ID.ofLast 2) []).1.1
      = some (Op.Get,
          (handed Op.Compressable (Call.Get (ID.ofLast 1) 42 1000 (ID.ofLast 2))).fields) ∧
    (handed Op.Compressable (Call.Get (ID.ofLast 1) 42 1000 (ID.ofLast 2))).fields.HasExactly
      [(Field.ChainID, Value.bytes (List.replicate 31 0 ++ [1])),
       (Field.RequestID, Value.uint32 42),
       (Field.Deadline, Value.uint64 1000),
       (Field.ContainerID, Value.bytes (List.replicate 31 0 ++ [2]))] :=
  ⟨((C1_get_fields Op.Compressable (ID.ofLast 1) 42 1000 (ID.ofLast 2)).2.2
      (List PackArgs) PackArgs Unit (NewBuilder recorder) []).2
    (fun _ _ _ _ _ => rfl) rfl,
   (C1_get_fields Op.Compressable (ID.ofLast 1) 42 1000 (ID.ofLast 2)).2.1⟩

/-- C2. With the catalogue's compressibility flag (true exactly for `PeerList`, `MultiPut`,
`Put`, `PushQuery`, `AppRequest`, `AppResponse`, `AppGossip`), every call of `GetVersion`,
`Version`, `GetPeerList`, `Ping`, `Pong`, `GetAcceptedFrontier`, `AcceptedFrontier`,
`GetAccepted`, `Accepted`, `GetAncestors`, `Get`, `PullQuery` or `Chits` hands `Pack` the
compression flag `false`; in the code the flag of these methods is the compressibility of
their own opcode, whatever the compressibility method is. -/
theorem C2_no_compression_request :
    (∀ op : Op, op.Compressable = true ↔
      op ∈ [Op.PeerList, Op.MultiPut, Op.Put, Op.PushQuery,
            Op.AppRequest, Op.AppResponse, Op.AppGossip]) ∧
    ∀ call : Call,
      call.op ∈ [Op.GetVersion, Op.Version, Op.GetPeerList, Op.Ping, Op.Pong,
                 Op.GetAcceptedFrontier, Op.AcceptedFrontier, Op.GetAccepted, Op.Accepted,
                 Op.GetAncestors, Op.Get, Op.PullQuery, Op.Chits] →
      (handed Op.Compressable call).compress = false ∧
      (∀ Compressable : Op → Bool,
        (handed Compressable call).compress = Compressable call.op) ∧
      ∀ (σ Msg Err : Type) (b : builder σ Msg Err) (s : σ),
        b.invoke Op.Compressable call s
          = b.c.Pack call.op (handed Op.Compressable call).fields false s := by
  refine ⟨fun op => by cases op <;> simp [Op.Compressable], ?_⟩
  intro call hop
  have h1 : (handed Op.Compressable call).compress = false := by
    cases call <;> first | rfl | (exfalso; simp [Call.op] at hop)
  have h2 : ∀ Compressable : Op → Bool,
      (handed Compressable call).compress = Compressable call.op := by
    intro Compressable
    cases call <;> first | rfl | (exfalso; simp [Call.op] at hop)
  refine ⟨h1, h2, ?_⟩
  intro σ Msg Err b s
  rw [invoke_eq_pack, h1, handed_op]

/-- C2 at a `Get` call. -/
theorem C2_no_compression_request_witness :
    (handed Op.Compressable (Call.Get (ID.ofLast 1) 42 1000 (ID.ofLast 2))).compress = false :=
  (C2_no_compression_request.2 (Call.Get (ID.ofLast 1) 42 1000 (ID.ofLast 2))
    (by decide)).1

/-- C3. For each of `PeerList`, `MultiPut`, `Put`, `PushQuery`, `AppRequest`, `AppResponse`
and `AppGossip`, and whatever the compressibility method is, the compression flag handed to
`Pack` is true if and only if the caller's preference is true and the opcode of the method is
compressible. -/
theorem C3_compression_gate (Compressable : Op → Bool) :
    (∀ peers z, (handed Compressable (Call.PeerList peers z)).compress = true ↔
      z = true ∧ Compressable Op.PeerList = true) ∧
    (∀ c r cs z, (handed Compressable (Call.MultiPut c r cs z)).compress = true ↔
      z = true ∧ Compressable Op.MultiPut = true) ∧
    (∀ c r k bs z, (handed Compressable (Call.Put c r k bs z)).compress = true ↔
      z = true ∧ Compressable Op.Put = true) ∧
    (∀ c r d k bs z, (handed Compressable (Call.PushQuery c r d k bs z)).compress = true ↔
      z = true ∧ Compressable Op.PushQuery = true) ∧
    (∀ c r d m z, (handed Compressable (Call.AppRequest c r d m z)).compress = true ↔
      z = true ∧ Compressable Op.AppRequest = true) ∧
    (∀ c r m z, (handed Compressable (Call.AppResponse c r m z)).compress = true ↔
      z = true ∧ Compressable Op.AppResponse = true) ∧
    (∀ c m z, (handed Compressable (Call.AppGossip c m z)).compress = true ↔
      z = true ∧ Compressable Op.AppGossip = true) := by
  refine ⟨?_, ?_, ?_, ?_, ?_, ?_, ?_⟩ <;> intros <;> exact Bool.and_eq_true _ _ |>.to_iff

/-- C4. Flattening an identifier list preserves length and order: the list of byte arrays
has the length of the identifier list and its element at every index is the 32-byte view of
the identifier at that index (so of two identifiers the first element is the first one, not a
second copy of the last); the empty list gives the empty list; and this is the value that
`AcceptedFrontier`, `GetAccepted`, `Accepted` and `Chits` store under `ContainerIDs` and
`Version` stores under `TrackedSubnets`. -/
theorem C4_flatten_preserves_order (Compressable : Op → Bool) (ids : List ID) :
    (idsToBytes ids).length = ids.length ∧
    (∀ i : Nat, (idsToBytes ids)[i]? = ids[i]?.map ID.bytes) ∧
    idsToBytes [] = [] ∧
    (∀ A B : ID, idsToBytes [A, B] = [A.bytes, B.bytes]) ∧
    (∀ c r, Flattens ids
      ((handed Compressable (Call.AcceptedFrontier c r ids)).fields.get Field.ContainerIDs)) ∧
    (∀ c r d, Flattens ids
      ((handed Compressable (Call.GetAccepted c r d ids)).fields.get Field.ContainerIDs)) ∧
    (∀ c r, Flattens ids
      ((handed Compressable (Call.Accepted c r ids)).fields.get Field.ContainerIDs)) ∧
    (∀ c r, Flattens ids
      ((handed Compressable (Call.Chits c r ids)).fields.get Field.ContainerIDs)) ∧
    (∀ n d t ip v vt sig, Flattens ids
      ((handed Compressable (Call.Version n d t ip v vt sig ids)).fields.get
        Field.TrackedSubnets)) := by
  refine ⟨by simp [idsToBytes_eq_map], fun i => by simp [idsToBytes_eq_map], rfl,
    fun A B => by simp [idsToBytes_eq_map], ?_, ?_, ?_, ?_, ?_⟩ <;> intros <;>
    exact flattens_idsToBytes ids

/-- C5. Two `Accepted` calls with the same chain identifier and request id and the lists
`[A, B]` and `[B, A]`, `A` different from `B`, hand `Pack` different field mappings; each
`ContainerIDs` value lists the identifiers in the caller's order; the built messages differ
under every codec that is injective on field mappings; and for all lists the `ContainerIDs`
values are equal only if the lists are. -/
theorem C5_accepted_order (Compressable : Op → Bool) (c : ID) (r : Nat) (A B : ID)
    (hAB : A ≠ B) :
    (handed Compressable (Call.Accepted c r [A, B])).fields
      ≠ (handed Compressable (Call.Accepted c r [B, A])).fields ∧
    (handed Compressable (Call.Accepted c r [A, B])).fields.get Field.ContainerIDs
      = some (Value.byteSlices [A.bytes, B.bytes]) ∧
    (handed Compressable (Call.Accepted c r [B, A])).fields.get Field.ContainerIDs
      = some (Value.byteSlices [B.bytes, A.bytes]) ∧
    (∀ (σ Msg Err : Type) (b : builder σ Msg Err) (s : σ),
      (∀ op z t m1 m2, (b.c.Pack op m1 z t).1.1 = (b.c.Pack op m2 z t).1.1 → m1 = m2) →
      (b.Accepted Compressable c r [A, B] s).1.1
        ≠ (b.Accepted Compressable c r [B, A] s).1.1) ∧
    (∀ xs ys : List ID,
      (handed Compressable (Call.Accepted c r xs)).fields.get Field.ContainerIDs
        = (handed Compressable (Call.Accepted c r ys)).fields.get Field.ContainerIDs →
      xs = ys) := by
  have hget : ∀ xs : List ID,
      (handed Compressable (Call.Accepted c r xs)).fields.get Field.ContainerIDs
        = some (Value.byteSlices (xs.map ID.bytes)) := by
    intro xs
    rw [← idsToBytes_eq_map]
    rfl
  have hinj : ∀ xs ys : List ID,
      (handed Compressable (Call.Accepted c r xs)).fields.get Field.ContainerIDs
        = (handed Compressable (Call.Accepted c r ys)).fields.get Field.ContainerIDs →
      xs = ys := by
    intro xs ys h
    rw [hget, hget] at h
    injection h with h
    injection h with h
    exact List.map_injective_iff.2 ID.bytes_injective h
  have hne : (handed Compressable (Call.Accepted c r [A, B])).fields
      ≠ (handed Compressable (Call.Accepted c r [B, A])).fields := by
    intro h
    have h2 := hinj [A, B] [B, A] (by rw [h])
    injection h2 with h3 _
    exact hAB h3
  refine ⟨hne, hget _, hget _, ?_, hinj⟩
  intro σ Msg Err b s hpack h
  exact hne (hpack _ _ _ _ _ h)

/-- C5 at `A = 0x00..01`, `B = 0x00..02`, with the recording codec. -/
theorem C5_accepted_order_witness :
    ((NewBuilder recorder).Accepted Op.Compressable ID.zero 7 [ID.ofLast 1, ID.ofLast 2] []).1.1
      ≠ ((NewBuilder recorder).Accepted Op.Compressable ID.zero 7
          [ID.ofLast 2, ID.ofLast 1] []).1.1 :=
  (C5_accepted_order Op.Compressable ID.zero 7 (ID.ofLast 1) (ID.ofLast 2)
      (by decide)).2.2.2.1 (List PackArgs) PackArgs Unit (NewBuilder recorder) []
    (fun _ _ _ _ _ h => (PackArgs.mk.inj h).2.1)

/-- C6. Every method of the builder returns exactly what its one call to `Pack` returns:
for every call, codec and codec state the result (message, error and codec state) is the
result of `Pack` on the arguments handed to it, so the method fails exactly when that `Pack`
call fails and with the same error; and the codec receives exactly one call. -/
theorem C6_propagates_pack_result (Compressable : Op → Bool) (call : Call) :
    (∀ (σ Msg Err : Type) (b : builder σ Msg Err) (s : σ),
      b.invoke Compressable call s
        = b.c.Pack (handed Compressable call).op (handed Compressable call).fields
            (handed Compressable call).compress s ∧
      (∀ e : Err, (b.invoke Compressable call s).1.2 = some e ↔
        (b.c.Pack (handed Compressable call).op (handed Compressable call).fields
            (handed Compressable call).compress s).1.2 = some e) ∧
      ((b.invoke Compressable call s).1.2 = none ↔
        (b.c.Pack (handed Compressable call).op (handed Compressable call).fields
            (handed Compressable call).compress s).1.2 = none)) ∧
    ∀ log : List PackArgs,
      ((NewBuilder recorder).invoke Compressable call log).2
        = log ++ [handed Compressable call] := by
  constructor
  · intro σ Msg Err b s
    have h := invoke_eq_pack Compressable b call s
    exact ⟨h, fun e => by rw [h], by rw [h]⟩
  · intro log
    rw [invoke_eq_pack]
    rfl

/-- C7. Every method hands `Pack` its own opcode and exactly the field set of its message
type, each field bound to the corresponding argument (identifiers as their 32 bytes,
identifier lists flattened in order, payloads as given): `GetVersion`, `GetPeerList`, `Ping`
and `Pong` pass the nil map, and every other method a map that holds exactly the listed
entries and no other key. -/
theorem C7_exact_field_sets (Compressable : Op → Bool) :
    ((handed Compressable Call.GetVersion).op = Op.GetVersion ∧
      (handed Compressable Call.GetVersion).fields = none) ∧
    (∀ n d t ip v vt sig ks,
      (handed Compressable (Call.Version n d t ip v vt sig ks)).op = Op.Version ∧
      (handed Compressable (Call.Version n d t ip v vt sig ks)).fields.HasExactly
          [(Field.NetworkID, Value.uint32 n),
           (Field.NodeID, Value.uint32 d),
           (Field.MyTime, Value.uint64 t),
           (Field.IP, Value.ipDesc ip),
           (Field.VersionStr, Value.string v),
           (Field.VersionTime, Value.uint64 vt),
           (Field.SigBytes, Value.bytes sig),
           (Field.TrackedSubnets, Value.byteSlices (ks.map ID.bytes))]) ∧
    ((handed Compressable Call.GetPeerList).op = Op.GetPeerList ∧
      (handed Compressable Call.GetPeerList).fields = none) ∧
    (∀ ps z,
      (handed Compressable (Call.PeerList ps z)).op = Op.PeerList ∧
      (handed Compressable (Call.PeerList ps z)).fields.HasExactly
          [(Field.SignedPeers, Value.peers ps)]) ∧
    ((handed Compressable Call.Ping).op = Op.Ping ∧
      (handed Compressable Call.Ping).fields = none) ∧
    ((handed Compressable Call.Pong).op = Op.Pong ∧
      (handed Compressable Call.Pong).fields = none) ∧
    (∀ c r d,
      (handed Compressable (Call.GetAcceptedFrontier c r d)).op = Op.GetAcceptedFrontier ∧
      (handed Compressable (Call.GetAcceptedFrontier c r d)).fields.HasExactly
          [(Field.ChainID, Value.bytes c.bytes),
           (Field.RequestID, Value.uint32 r),
           (Field.Deadline, Value.uint64 d)]) ∧
    (∀ c r ks,
      (handed Compressable (Call.AcceptedFrontier c r ks)).op = Op.AcceptedFrontier ∧
      (handed Compressable (Call.AcceptedFrontier c r ks)).fields.HasExactly
          [(Field.ChainID, Value.bytes c.bytes),
           (Field.RequestID, Value.uint32 r),
           (Field.ContainerIDs, Value.byteSlices (ks.map ID.bytes))]) ∧
    (∀ c r d ks,
      (handed Compressable (Call.GetAccepted c r d ks)).op = Op.GetAccepted ∧
      (handed Compressable (Call.GetAccepted c r d ks)).fields.HasExactly
          [(Field.ChainID, Value.bytes c.bytes),
           (Field.RequestID, Value.uint32 r),
           (Field.Deadline, Value.uint64 d),
           (Field.ContainerIDs, Value.byteSlices (ks.map ID.bytes))]) ∧
    (∀ c r ks,
      (handed Compressable (Call.Accepted c r ks)).op = Op.Accepted ∧
      (handed Compressable (Call.Accepted c r ks)).fields.HasExactly
          [(Field.ChainID, Value.bytes c.bytes),
           (Field.RequestID, Value.uint32 r),
           (Field.ContainerIDs, Value.byteSlices (ks.map ID.bytes))]) ∧
    (∀ c r d k,
      (handed Compressable (Call.GetAncestors c r d k)).op = Op.GetAncestors ∧
      (handed Compressable (Call.GetAncestors c r d k)).fields.HasExactly
          [(Field.ChainID, Value.bytes c.bytes),
           (Field.RequestID, Value.uint32 r),
           (Field.Deadline, Value.uint64 d),
           (Field.ContainerID, Value.bytes k.bytes)]) ∧
    (∀ c r cs z,
      (handed Compressable (Call.MultiPut c r cs z)).op = Op.MultiPut ∧
      (handed Compressable (Call.MultiPut c r cs z)).fields.HasExactly
          [(Field.ChainID, Value.bytes c.bytes),
           (Field.RequestID, Value.uint32 r),
           (Field.MultiContainerBytes, Value.byteSlices cs)]) ∧
    (∀ c r d k,
      (handed Compressable (Call.Get c r d k)).op = Op.Get ∧
      (handed Compressable (Call.Get c r d k)).fields.HasExactly
          [(Field.ChainID, Value.bytes c.bytes),
           (Field.RequestID, Value.uint32 r),
           (Field.Deadline, Value.uint64 d),
           (Field.ContainerID, Value.bytes k.bytes)]) ∧
    (∀ c r k bs z,
      (handed Compressable (Call.Put c r k bs z)).op = Op.Put ∧
      (handed Compressable (Call.Put c r k bs z)).fields.HasExactly
          [(Field.ChainID, Value.bytes c.bytes),
           (Field.RequestID, Value.uint32 r),
           (Field.ContainerID, Value.bytes k.bytes),
           (Field.ContainerBytes, Value.bytes bs)]) ∧
    (∀ c r d k bs z,
      (handed Compressable (Call.PushQuery c r d k bs z)).op = Op.PushQuery ∧
      (handed Compressable (Call.PushQuery c r d k bs z)).fields.HasExactly
          [(Field.ChainID, Value.bytes c.bytes),
           (Field.RequestID, Value.uint32 r),
           (Field.Deadline, Value.uint64 d),
           (Field.ContainerID, Value.bytes k.bytes),
           (Field.ContainerBytes, Value.bytes bs)]) ∧
    (∀ c r d k,
      (handed Compressable (Call.PullQuery c r d k)).op = Op.PullQuery ∧
      (handed Compressable (Call.PullQuery c r d k)).fields.HasExactly
          [(Field.ChainID, Value.bytes c.bytes),
           (Field.RequestID, Value.uint32 r),
           (Field.Deadline, Value.uint64 d),
           (Field.ContainerID, Value.bytes k.bytes)]) ∧
    (∀ c r ks,
      (handed Compressable (Call.Chits c r ks)).op = Op.Chits ∧
      (handed Compressable (Call.Chits c r ks)).fields.HasExactly
          [(Field.ChainID, Value.bytes c.bytes),
           (Field.RequestID, Value.uint32 r),
           (Field.ContainerIDs, Value.byteSlices (ks.map ID.bytes))]) ∧
    (∀ c r d m z,
      (handed Compressable (Call.AppRequest c r d m z)).op = Op.AppRequest ∧
      (handed Compressable (Call.AppRequest c r d m z)).fields.HasExactly
          [(Field.ChainID, Value.bytes c.bytes),
           (Field.RequestID, Value.uint32 r),
           (Field.Deadline, Value.uint64 d),
           (Field.AppRequestBytes, Value.bytes m)]) ∧
    (∀ c r m z,
      (handed Compressable (Call.AppResponse c r m z)).op = Op.AppResponse ∧
      (handed Compressable (Call.AppResponse c r m z)).fields.HasExactly
          [(Field.ChainID, Value.bytes c.bytes),
           (Field.RequestID, Value.uint32 r),
           (Field.AppResponseBytes, Value.bytes m)]) ∧
    (∀ c m z,
      (handed Compressable (Call.AppGossip c m z)).op = Op.AppGossip ∧
      (handed Compressable (Call.AppGossip c m z)).fields.HasExactly
          [(Field.ChainID, Value.bytes c.bytes),
           (Field.AppGossipBytes, Value.bytes m)]) := by
  refine ⟨?_, ?_, ?_, ?_, ?_, ?_, ?_, ?_, ?_, ?_, ?_, ?_, ?_, ?_, ?_, ?_, ?_, ?_, ?_, ?_⟩ <;>
    first
    | exact ⟨rfl, rfl⟩
    | (intros
       refine ⟨rfl, ?_⟩
       first
       | exact mapLit_hasExactly _ (by simp)
       | (rw [← idsToBytes_eq_map]
          exact mapLit_hasExactly _ (by simp)))

/-- Running further calls: the state after a history followed by one call. -/
theorem runAll_append {σ Msg Err : Type} (Compressable : Op → Bool) (b : builder σ Msg Err)
    (hist : List Call) (call : Call) :
    ∀ s : σ, b.runAll Compressable (hist ++ [call]) s
      = (b.invoke Compressable call (b.runAll Compressable hist s)).2 := by
  induction hist with
  | nil => intro s; rfl
  | cons c0 rest ih => intro s; exact ih _

/-- C8. The builder is stateless and deterministic: for two builders wrapping the same
codec and one call, whatever calls were made before on either builder, both hand `Pack` the
same opcode, field mapping and compression flag (the recording codec logs the same arguments
after every history); so when `Pack` answers independently of the codec state the two built
messages and errors are identical. -/
theorem C8_stateless_deterministic {σ Msg Err : Type} (Compressable : Op → Bool)
    (b1 b2 : builder σ Msg Err) (hc : b1.c = b2.c) (call : Call)
    (hist1 hist2 : List Call) (s1 s2 : σ) :
    b1.invoke Compressable call (b1.runAll Compressable hist1 s1)
      = b1.c.Pack (handed Compressable call).op (handed Compressable call).fields
          (handed Compressable call).compress (b1.runAll Compressable hist1 s1) ∧
    b2.invoke Compressable call (b2.runAll Compressable hist2 s2)
      = b1.c.Pack (handed Compressable call).op (handed Compressable call).fields
          (handed Compressable call).compress (b2.runAll Compressable hist2 s2) ∧
    (∀ (hist : List Call) (log : List PackArgs),
      (NewBuilder recorder).runAll Compressable (hist ++ [call]) log
        = (NewBuilder recorder).runAll Compressable hist log ++ [handed Compressable call]) ∧
    ((∀ op m z t t', (b1.c.Pack op m z t).1 = (b1.c.Pack op m z t').1) →
      (b1.invoke Compressable call (b1.runAll Compressable hist1 s1)).1
        = (b2.invoke Compressable call (b2.runAll Compressable hist2 s2)).1) := by
  refine ⟨invoke_eq_pack _ _ _ _, ?_, ?_, ?_⟩
  · rw [hc]
    exact invoke_eq_pack _ _ _ _
  · intro hist log
    rw [runAll_append, invoke_eq_pack]
    rfl
  · intro hdet
    rw [invoke_eq_pack, invoke_eq_pack, ← hc]
    exact hdet _ _ _ _ _

/-- C8 with the recording codec: a `Get` call after an empty history and after a history of
two calls returns the same message. -/
theorem C8_stateless_deterministic_witness :
    ((NewBuilder recorder).invoke Op.Compressable
        (Call.Get (ID.ofLast 1) 42 1000 (ID.ofLast 2))
        ((NewBuilder recorder).runAll Op.Compressable [] [])).1
      = ((NewBuilder recorder).invoke Op.Compressable
          (Call.Get (ID.ofLast 1) 42 1000 (ID.ofLast 2))
          ((NewBuilder recorder).runAll Op.Compressable
            [Call.Ping, Call.Put ID.zero 1 ID.zero [] true] [])).1 :=
  (C8_stateless_deterministic Op.Compressable (NewBuilder recorder) (NewBuilder recorder) rfl
      (Call.Get (ID.ofLast 1) 42 1000 (ID.ofLast 2)) []
      [Call.Ping, Call.Put ID.zero 1 ID.zero [] true] [] []).2.2.2
    (fun _ _ _ _ _ => rfl)

/-- C9. Whatever the compressibility method is, a call that hands `Pack` a true compression
flag is a call of a method whose opcode is compressible. -/
theorem C9_compress_only_compressible (Compressable : Op → Bool) (call : Call)
    (h : (handed Compressable call).compress = true) :
    Compressable (handed Compressable call).op = true ∧ Compressable call.op = true := by
  cases call <;>
    first
    | exact ⟨h, h⟩
    | exact ⟨((Bool.and_eq_true _ _).to_iff.1 h).2, ((Bool.and_eq_true _ _).to_iff.1 h).2⟩

/-- C9 at a `Put` call whose caller asks for compression, under the catalogue's flag. -/
theorem C9_compress_only_compressible_witness :
    (handed Op.Compressable (Call.Put ID.zero 1 ID.zero [] true)).compress = true ∧
    Op.Compressable (Call.Put ID.zero 1 ID.zero [] true).op = true :=
  ⟨rfl, (C9_compress_only_compressible Op.Compressable (Call.Put ID.zero 1 ID.zero [] true)
    rfl).2⟩

/-- C10. The caller's compression preference changes nothing but the compression flag: for
each of `PeerList`, `MultiPut`, `Put`, `PushQuery`, `AppRequest`, `AppResponse` and
`AppGossip`, two calls that differ only in the preference hand `Pack` the same opcode and the
same field mapping, in which the payload is bound as given. -/
theorem C10_preference_only_flag (Compressable : Op → Bool) :
    (∀ ps z1 z2,
      (handed Compressable (Call.PeerList ps z1)).op
        = (handed Compressable (Call.PeerList ps z2)).op ∧
      (handed Compressable (Call.PeerList ps z1)).fields
        = (handed Compressable (Call.PeerList ps z2)).fields ∧
      (handed Compressable (Call.PeerList ps z1)).fields.get Field.SignedPeers
        = some (Value.peers ps)) ∧
    (∀ c r cs z1 z2,
      (handed Compressable (Call.MultiPut c r cs z1)).op
        = (handed Compressable (Call.MultiPut c r cs z2)).op ∧
      (handed Compressable (Call.MultiPut c r cs z1)).fields
        = (handed Compressable (Call.MultiPut c r cs z2)).fields ∧
      (handed Compressable (Call.MultiPut c r cs z1)).fields.get Field.MultiContainerBytes
        = some (Value.byteSlices cs)) ∧
    (∀ c r k bs z1 z2,
      (handed Compressable (Call.Put c r k bs z1)).op
        = (handed Compressable (Call.Put c r k bs z2)).op ∧
      (handed Compressable (Call.Put c r k bs z1)).fields
        = (handed Compressable (Call.Put c r k bs z2)).fields ∧
      (handed Compressable (Call.Put c r k bs z1)).fields.get Field.ContainerBytes
        = some (Value.bytes bs)) ∧
    (∀ c r d k bs z1 z2,
      (handed Compressable (Call.PushQuery c r d k bs z1)).op
        = (handed Compressable (Call.PushQuery c r d k bs z2)).op ∧
      (handed Compressable (Call.PushQuery c r d k bs z1)).fields
        = (handed Compressable (Call.PushQuery c r d k bs z2)).fields ∧
      (handed Compressable (Call.PushQuery c r d k bs z1)).fields.get Field.ContainerBytes
        = some (Value.bytes bs)) ∧
    (∀ c r d m z1 z2,
      (handed Compressable (Call.AppRequest c r d m z1)).op
        = (handed Compressable (Call.AppRequest c r d m z2)).op ∧
      (handed Compressable (Call.AppRequest c r d m z1)).fields
        = (handed Compressable (Call.AppRequest c r d m z2)).fields ∧
      (handed Compressable (Call.AppRequest c r d m z1)).fields.get Field.AppRequestBytes
        = some (Value.bytes m)) ∧
    (∀ c r m z1 z2,
      (handed Compressable (Call.AppResponse c r m z1)).op
        = (handed Compressable (Call.AppResponse c r m z2)).op ∧
      (handed Compressable (Call.AppResponse c r m z1)).fields
        = (handed Compressable (Call.AppResponse c r m z2)).fields ∧
      (handed Compressable (Call.AppResponse c r m z1)).fields.get Field.AppResponseBytes
        = some (Value.bytes m)) ∧
    (∀ c m z1 z2,
      (handed Compressable (Call.AppGossip c m z1)).op
        = (handed Compressable (Call.AppGossip c m z2)).op ∧
      (handed Compressable (Call.AppGossip c m z1)).fields
        = (handed Compressable (Call.AppGossip c m z2)).fields ∧
      (handed Compressable (Call.AppGossip c m z1)).fields.get Field.AppGossipBytes
        = some (Value.bytes m)) := by
  refine ⟨?_, ?_, ?_, ?_, ?_, ?_, ?_⟩ <;> intros <;> exact ⟨rfl, rfl, rfl⟩

end Message
